import Mathlib

/-!
Verification development for the pingboard repository (src/db.py,
src/checker.py, src/api.py): a SQLite-backed URL health monitor with an
async per-target polling scheduler and a FastAPI status endpoint.

The SQLite database is embedded as an explicit state (`DB`) holding the
`urls` and `checks` tables as lists of rows in rowid (insertion) order,
together with the AUTOINCREMENT counters.  `checked_at` is stored by the
code as an ISO-8601 UTC TEXT value (`strftime` in src/db.py); such strings
compare lexicographically exactly in chronological order, so it is embedded
as a `Nat`.  `REAL` latency values are embedded as `Rat`.  SQL `ORDER BY`
is embedded with `List.insertionSort`, which is stable, matching SQLite's
observed stable handling of ORDER-BY peers (rows equal under the ORDER BY
terms are emitted in table-scan, i.e. rowid, order).  A SQL `LIMIT ?` with
a negative bound means "no limit" in SQLite; `sqliteLimit` reproduces this.
-/

namespace Pingboard

/-- A row of the `urls` table (SCHEMA in src/db.py).  `id` is the
AUTOINCREMENT primary key, `url` is UNIQUE.  `created_at` is omitted:
nothing in the code or claims reads it. -/
structure UrlRow where
  id : Nat
  url : String
  label : Option String
  interval_seconds : Int
deriving Repr, DecidableEq

/-- A row of the `checks` table (SCHEMA in src/db.py). -/
structure CheckRow where
  id : Nat
  url_id : Nat
  status_code : Option Int
  response_time_ms : Option Rat
  error : Option String
  checked_at : Nat
deriving Repr, DecidableEq

/-- The database state: both tables in rowid order plus the AUTOINCREMENT
counters (SQLite rowids start at 1). -/
structure DB where
  urls : List UrlRow
  checks : List CheckRow
  nextUrlId : Nat
  nextCheckId : Nat
deriving Repr, DecidableEq

/-- A freshly initialised database (init_db in src/db.py). -/
def DB.empty : DB := ⟨[], [], 1, 1⟩

/-- SQLite `LIMIT ?`: a negative limit means no limit at all. -/
def sqliteLimit {α : Type} (n : Int) (l : List α) : List α :=
  if n < 0 then l else l.take n.toNat

/-- add_url (src/db.py): `INSERT OR IGNORE` into `urls`, then — because on a
fresh connection an ignored insert leaves `cur.lastrowid` falsy — fall back
to `SELECT id FROM urls WHERE url = ?`.  Returns the row id and the new
state. -/
def add_url (db : DB) (url : String) (label : Option String)
    (interval_seconds : Int) : Nat × DB :=
  match db.urls.find? (fun r => r.url == url) with
  | some r => (r.id, db)
  | none =>
      (db.nextUrlId,
        ⟨db.urls ++ [⟨db.nextUrlId, url, label, interval_seconds⟩],
         db.checks, db.nextUrlId + 1, db.nextCheckId⟩)

/-- record_check (src/db.py): `INSERT INTO checks ...`; `checked_at` is
assigned at write time (the `now` argument).  Returns the check row id and
the new state. -/
def record_check (db : DB) (url_id : Nat) (status_code : Option Int)
    (response_time_ms : Option Rat) (error : Option String) (now : Nat) :
    Nat × DB :=
  (db.nextCheckId,
    ⟨db.urls,
     db.checks ++ [⟨db.nextCheckId, url_id, status_code, response_time_ms, error, now⟩],
     db.nextUrlId, db.nextCheckId + 1⟩)

/-- The `ORDER BY checked_at DESC, id DESC` order used by get_latest_checks
(src/db.py): `a` comes no later than `b` when `a` has the larger timestamp,
or equal timestamps and the larger (or equal) id. -/
def latestOrder (a b : CheckRow) : Prop :=
  b.checked_at < a.checked_at ∨ (b.checked_at = a.checked_at ∧ b.id ≤ a.id)

instance : DecidableRel latestOrder := fun a b =>
  decidable_of_iff
    (b.checked_at < a.checked_at ∨ (b.checked_at = a.checked_at ∧ b.id ≤ a.id))
    Iff.rfl

instance : IsTotal CheckRow latestOrder :=
  ⟨fun a b => by unfold latestOrder; omega⟩

instance : IsTrans CheckRow latestOrder :=
  ⟨fun a b c hab hbc => by unfold latestOrder at hab hbc ⊢; omega⟩

/-- The `ORDER BY checked_at DESC` order of the ROW_NUMBER window in
prune_old_checks (src/db.py).  It does NOT look at `id`: peers (equal
timestamps) are ranked by the stable sort in their table-scan order. -/
def pruneOrder (a b : CheckRow) : Prop :=
  b.checked_at ≤ a.checked_at

instance : DecidableRel pruneOrder := fun a b =>
  decidable_of_iff (b.checked_at ≤ a.checked_at) Iff.rfl

instance : IsTotal CheckRow pruneOrder :=
  ⟨fun a b => by unfold pruneOrder; omega⟩

instance : IsTrans CheckRow pruneOrder :=
  ⟨fun a b c hab hbc => by unfold pruneOrder at hab hbc ⊢; omega⟩

/-- get_latest_checks (src/db.py):
`SELECT * FROM checks WHERE url_id = ? ORDER BY checked_at DESC, id DESC
LIMIT ?`.  The limit is passed straight to SQLite, so a negative `n` means
"all rows". -/
def get_latest_checks (db : DB) (url_id : Nat) (n : Int) : List CheckRow :=
  sqliteLimit n
    (List.insertionSort latestOrder (db.checks.filter (fun c => c.url_id == url_id)))

/-- The ids selected by the subquery of prune_old_checks (src/db.py): per
`url_id` partition, the ids of the rows whose
`ROW_NUMBER() OVER (PARTITION BY url_id ORDER BY checked_at DESC)` is at
most `keep`.  `Int.toNat` sends a negative `keep` to 0, matching
`rn <= keep` being false for every row number when `keep < 0`. -/
def pruneKeptIds (checks : List CheckRow) (keep : Int) : List Nat :=
  ((checks.map (fun c => c.url_id)).dedup).flatMap (fun u =>
    ((List.insertionSort pruneOrder (checks.filter (fun c => c.url_id == u))).take
        keep.toNat).map (fun c => c.id))

/-- prune_old_checks (src/db.py): `DELETE FROM checks WHERE id NOT IN
(...)`; returns `cur.rowcount` (rows deleted) and the new state. -/
def prune_old_checks (db : DB) (keep : Int) : Nat × DB :=
  let kept := pruneKeptIds db.checks keep
  let remaining := db.checks.filter (fun c => decide (c.id ∈ kept))
  (db.checks.length - remaining.length,
    ⟨db.urls, remaining, db.nextUrlId, db.nextCheckId⟩)

/-- The `ORDER BY id` order of get_all_urls (src/db.py). -/
def urlIdOrder (a b : UrlRow) : Prop := a.id ≤ b.id

instance : DecidableRel urlIdOrder := fun a b =>
  decidable_of_iff (a.id ≤ b.id) Iff.rfl

/-- get_all_urls (src/db.py): `SELECT * FROM urls ORDER BY id`. -/
def get_all_urls (db : DB) : List UrlRow :=
  List.insertionSort urlIdOrder db.urls

/-! ### Probe executor (check_url in src/checker.py)

The httpx outcomes of `await client.get(url, follow_redirects=True)` are
embedded as an inductive event: either a response arrives, or one of the
httpx exception classes that the code catches is raised.  All httpx network
failures derive from `httpx.HTTPError`; `httpx.TimeoutException` and
`httpx.ConnectError` are matched by the earlier `except` clauses.  check_url
is a total function of the event — no event makes it raise — which is the
embedding of "never propagates an exception for a network failure". -/

/-- The outcome of the single HTTP GET issued by check_url. -/
inductive ProbeEvent where
  | response (status : Int) (latencyMs : Rat)
  | timeout
  | connectError (detail : String)
  | httpError (detail : String)
deriving Repr, DecidableEq

/-- The dict returned by check_url (src/checker.py): keys status_code, ok,
latency_ms, error. -/
structure ProbeResult where
  status_code : Option Int
  ok : Bool
  latency_ms : Option Rat
  error : Option String
deriving Repr, DecidableEq

/-- check_url (src/checker.py), branch by branch: the success path computes
`ok` as `200 <= resp.status_code < 400`; the three `except` branches return
values, never re-raise. -/
def check_url : ProbeEvent → ProbeResult
  | .response s l => ⟨some s, decide (200 ≤ s ∧ s < 400), some l, none⟩
  | .timeout => ⟨none, false, none, some "timeout"⟩
  | .connectError d => ⟨none, false, none, some ("connect_error: " ++ d)⟩
  | .httpError d => ⟨none, false, none, some d⟩

/-! ### Status endpoint (status in src/api.py) -/

/-- The ok computation of the status endpoint (src/api.py):
`c["status_code"] is not None and 200 <= c["status_code"] < 400`. -/
def api_ok : Option Int → Bool
  | some c => decide (200 ≤ c ∧ c < 400)
  | none => false

/-- One check as serialised by the status endpoint (src/api.py). -/
structure CheckView where
  status_code : Option Int
  latency_ms : Option Rat
  ok : Bool
  checked_at : Nat
deriving Repr, DecidableEq

/-- The per-check dict built inside status (src/api.py). -/
def checkView (c : CheckRow) : CheckView :=
  ⟨c.status_code, c.response_time_ms, api_ok c.status_code, c.checked_at⟩

/-- One element of the list returned by the status endpoint. -/
structure StatusEntry where
  url : String
  latest : Option CheckView
  checks : List CheckView
deriving Repr, DecidableEq

/-- The per-target body of the loop in status (src/api.py): fetch the 20
most recent checks; `latest` is the first of them when the list is
non-empty, otherwise `None`. -/
def statusEntry (db : DB) (row : UrlRow) : StatusEntry :=
  let cs := get_latest_checks db row.id 20
  ⟨row.url, cs.head?.map checkView, cs.map checkView⟩

/-- status (src/api.py): one entry per registered url. -/
def status (db : DB) : List StatusEntry :=
  (get_all_urls db).map (statusEntry db)

/-! ### Configuration loader (load_urls_from_json in src/db.py)

A JSON registry entry is embedded with an `Option String` url so that a
missing `"url"` key can be represented: `entry["url"]` on such an entry
raises `KeyError`, which nothing in load_urls_from_json catches, so the
loading loop aborts there.  `entry.get(...)` accesses never raise.  Each
successfully processed entry is committed by its own add_url call before
the next entry is examined, so entries processed before an abort stay
registered. -/

/-- One element of the `urls` array of urls.json. -/
structure ConfigEntry where
  url : Option String
  label : Option String
  interval_seconds : Option Int
deriving Repr, DecidableEq

/-- The parsed urls.json document: optional top-level default interval and
the entry list. -/
structure Config where
  interval_seconds : Option Int
  urls : List ConfigEntry
deriving Repr, DecidableEq

/-- The entry loop of load_urls_from_json: processes entries left to right,
committing each add_url; an entry with no url aborts with the KeyError,
returning the ids accumulated so far are lost but the database changes made
so far persist. -/
def loadEntries (defaultInterval : Int) :
    DB → List Nat → List ConfigEntry → Except String (List Nat) × DB
  | db, acc, [] => (Except.ok acc.reverse, db)
  | db, acc, e :: rest =>
      match e.url with
      | none => (Except.error "KeyError: url", db)
      | some u =>
          let p := add_url db u e.label (e.interval_seconds.getD defaultInterval)
          loadEntries defaultInterval p.2 (p.1 :: acc) rest

/-- load_urls_from_json (src/db.py): reads the default interval with
`data.get("interval_seconds", 60)` then registers each entry in order.
The result is the list of ids (or the uncaught exception) together with
the database state reached. -/
def load_urls_from_json (db : DB) (cfg : Config) :
    Except String (List Nat) × DB :=
  loadEntries (cfg.interval_seconds.getD 60) db [] cfg.urls

/-! ### Per-target polling loop (_check_loop in src/checker.py)

One iteration of the `while not stop_event.is_set()` body is driven by an
environment record: the probe's network outcome, the wall-clock second at
which the result is recorded, whether the db.record_check call raises (a
storage failure such as sqlite3.OperationalError — the call is not wrapped
in any try/except, so an exception propagates and ends the coroutine), and
whether the stop event is set during the interval wait (in which case
`asyncio.wait_for` returns normally and the next `while` test exits the
loop).  The loop is run against a schedule, a finite list of such
environments; exhausting the schedule with the loop still running is
`none`. -/

/-- The environment of one loop iteration. -/
structure IterEnv where
  probe : ProbeEvent
  now : Nat
  recordFails : Bool
  stopDuringWait : Bool
deriving Repr, DecidableEq

/-- How a target's loop coroutine ended: a normal exit via the `while`
test, or an uncaught exception. -/
inductive LoopExit where
  | stopped
  | crashed
deriving Repr, DecidableEq

/-- The Recording step: db.record_check with the fields of the check_url
result (src/checker.py lines 53-58). -/
def recordProbe (urlId : Nat) (db : DB) (e : IterEnv) : DB :=
  (record_check db urlId (check_url e.probe).status_code
    (check_url e.probe).latency_ms (check_url e.probe).error e.now).2

/-- The _check_loop state machine: check the stop flag, probe (check_url is
total, it cannot raise), record (an uncaught storage exception ends the
coroutine with nothing recorded this tick), wait out the interval, repeat.
`none` means the schedule ran out with the loop still running. -/
def check_loop (urlId : Nat) : Bool → DB → List IterEnv → Option (DB × LoopExit)
  | true, db, _ => some (db, LoopExit.stopped)
  | false, _, [] => none
  | false, db, e :: rest =>
      if e.recordFails then some (db, LoopExit.crashed)
      else check_loop urlId e.stopDuringWait (recordProbe urlId db e) rest

/-- Recording every environment of a schedule in order (the database state
_check_loop reaches after that many successful iterations). -/
def recordAll (urlId : Nat) (db : DB) (envs : List IterEnv) : DB :=
  envs.foldl (recordProbe urlId) db

/-! ### Scheduler shutdown (run_checker in src/checker.py)

After `await stop_event.wait()` returns, run_checker runs `t.cancel()` on
every spawned task and then `await asyncio.gather(*tasks,
return_exceptions=True)`.  Each task is, at that instant, suspended at one
of its await points or already finished; `cancel()` injects CancelledError
at the current suspension point, so a task suspended inside the probe's
`await client.get(...)` has its in-flight HTTP request aborted rather than
run to completion, while a task suspended in the interval wait stops
without probing again.  gather awaits every task in the list, so every
loop is joined before run_checker (and hence the lifespan's `await task`)
returns. -/

/-- Where a per-target task is suspended when stop is signalled. -/
inductive TaskPhase where
  | waitingInterval
  | probing
  | finished
deriving Repr, DecidableEq

/-- The terminal state a task reaches under cancellation. -/
inductive TaskOutcome where
  | stoppedNormally
  | cancelledIdle
  | cancelledMidProbe
deriving Repr, DecidableEq

/-- The effect of `t.cancel()` on one task: CancelledError is delivered at
the task's current suspension point; a finished task is unaffected. -/
def cancelTask : TaskPhase → TaskOutcome
  | TaskPhase.finished => TaskOutcome.stoppedNormally
  | TaskPhase.waitingInterval => TaskOutcome.cancelledIdle
  | TaskPhase.probing => TaskOutcome.cancelledMidProbe

/-- The shutdown sequence of run_checker: cancel every task, then gather
them all; the outcome list has one joined terminal outcome per spawned
task. -/
def run_checker_stop (tasks : List TaskPhase) : List TaskOutcome :=
  tasks.map cancelTask

/-- Whether a task's final probe, if one was in flight at shutdown, ran to
completion before the task ended. -/
def probeRanToCompletion : TaskOutcome → Bool
  | TaskOutcome.cancelledMidProbe => false
  | _ => true

/-! ### Concrete states used by witnesses and counterexamples -/

/-- One target with two checks carrying the same timestamp. -/
def dbTwoChecks : DB :=
  ⟨[⟨1, "https://a.example.com", none, 60⟩],
   [⟨1, 1, some 200, none, none, 10⟩, ⟨2, 1, some 503, none, none, 10⟩], 2, 3⟩

/-- One registered target, no checks. -/
def dbFreshTarget : DB := ⟨[⟨1, "https://a.example.com", none, 60⟩], [], 2, 1⟩

/-- A well-formed entry, then an entry with no "url" key, then another
well-formed entry. -/
def cfgMixed : Config :=
  ⟨none,
   [⟨some "https://a.example.com", none, none⟩,
    ⟨none, none, none⟩,
    ⟨some "https://b.example.com", none, none⟩]⟩

/-- A tick whose store write succeeds and whose interval wait times out. -/
def envOk : IterEnv := ⟨ProbeEvent.timeout, 0, false, false⟩

/-- A tick whose db.record_check call raises a storage error. -/
def envFail : IterEnv := ⟨ProbeEvent.timeout, 1, true, false⟩

/-- Two targets: target 1 holds three checks, target 2 holds one. -/
def dbPruneW : DB :=
  ⟨[⟨1, "https://a.example.com", none, 60⟩, ⟨2, "https://b.example.com", none, 60⟩],
   [⟨1, 1, some 200, none, none, 1⟩, ⟨2, 1, some 200, none, none, 2⟩,
    ⟨3, 2, some 200, none, none, 2⟩, ⟨4, 1, some 500, none, none, 3⟩], 3, 5⟩

/-! ### Shared lemmas about the §3 ordering -/

/-- The `ORDER BY checked_at DESC, id DESC` sort is sorted for
`latestOrder`. -/
lemma latest_sorted (db : DB) (u : Nat) :
    List.Pairwise latestOrder
      (List.insertionSort latestOrder (db.checks.filter (fun c => c.url_id == u))) :=
  List.sorted_insertionSort latestOrder _

/-- The sort is a permutation of the WHERE-filtered rows. -/
lemma latest_perm (db : DB) (u : Nat) :
    (List.insertionSort latestOrder (db.checks.filter (fun c => c.url_id == u))).Perm
      (db.checks.filter (fun c => c.url_id == u)) :=
  List.perm_insertionSort latestOrder _

/-! ### Claim theorems -/

/-- C5 (confirmed): check_url converts every network failure into a
returned value — `check_url` is a total function of the probe event, so no
event makes it raise — with a timeout giving status_code none, latency
none, error "timeout"; a connection failure giving error
"connect_error: <detail>"; and any other transport failure giving the
stringified cause as the error. -/
theorem check_url_total_failure_values :
    check_url ProbeEvent.timeout = ⟨none, false, none, some "timeout"⟩
    ∧ (∀ d : String, check_url (ProbeEvent.connectError d)
        = ⟨none, false, none, some ("connect_error: " ++ d)⟩)
    ∧ (∀ d : String, check_url (ProbeEvent.httpError d)
        = ⟨none, false, none, some d⟩) :=
  ⟨rfl, fun _ => rfl, fun _ => rfl⟩

/-- C6 (confirmed): the derived ok flag is true exactly when status_code is
present and in [200, 400); 399 is ok, 400 is not, absent is not; and the
probe executor (check_url) and the status endpoint (api_ok / checkView)
compute ok by the same predicate. -/
theorem ok_predicate_consistent :
    (∀ e : ProbeEvent, (check_url e).ok = api_ok (check_url e).status_code)
    ∧ (∀ s : Int, api_ok (some s) = decide (200 ≤ s ∧ s < 400))
    ∧ api_ok (some 399) = true
    ∧ api_ok (some 400) = false
    ∧ api_ok none = false
    ∧ (∀ c : CheckRow, (checkView c).ok = api_ok c.status_code) :=
  ⟨fun e => by cases e <;> rfl, fun _ => rfl, by decide, by decide, rfl, fun _ => rfl⟩

/-- C2 (confirmed): for every database state, target and count n ≥ 0 (the
count is a `Nat` cast into the SQL limit), get_latest_checks returns at
most n rows, every returned row is a stored check of that target, and the
rows are ordered by checked_at descending with ties broken by the
insertion id descending (the later-inserted of two equal-timestamp rows
comes first). -/
theorem get_latest_checks_ordering (db : DB) (u : Nat) (n : Nat) :
    (get_latest_checks db u (n : Int)).length ≤ n
    ∧ (∀ c ∈ get_latest_checks db u (n : Int), c ∈ db.checks ∧ c.url_id = u)
    ∧ List.Pairwise (fun a b => b.checked_at < a.checked_at
        ∨ (b.checked_at = a.checked_at ∧ b.id ≤ a.id))
        (get_latest_checks db u (n : Int)) := by
  have hrep : get_latest_checks db u (n : Int)
      = (List.insertionSort latestOrder
          (db.checks.filter (fun c => c.url_id == u))).take n := by
    unfold get_latest_checks sqliteLimit
    rw [if_neg (by exact_mod_cast Int.not_lt.mpr (Int.natCast_nonneg n)),
      Int.toNat_natCast]
  refine ⟨?_, ?_, ?_⟩
  · rw [hrep]
    calc ((List.insertionSort latestOrder
            (db.checks.filter (fun c => c.url_id == u))).take n).length
        = min n _ := List.length_take ..
      _ ≤ n := Nat.min_le_left ..
  · intro c hc
    rw [hrep] at hc
    have hc2 := (latest_perm db u).mem_iff.mp (List.take_subset _ _ hc)
    have hc3 := List.mem_filter.mp hc2
    exact ⟨hc3.1, by simpa using hc3.2⟩
  · rw [hrep]
    exact (latest_sorted db u).sublist (List.take_sublist ..)

/-- C10 (confirmed): a negative n is passed straight to SQLite's LIMIT,
which treats it as "no limit", so get_latest_checks returns every stored
check of the target (and only those), still newest first. -/
theorem negative_limit_returns_all (db : DB) (u : Nat) (n : Int) (hn : n < 0) :
    ((get_latest_checks db u n).length
        = (db.checks.filter (fun c => c.url_id == u)).length)
    ∧ (∀ c : CheckRow, c ∈ get_latest_checks db u n ↔ (c ∈ db.checks ∧ c.url_id = u))
    ∧ List.Pairwise (fun a b => b.checked_at < a.checked_at
        ∨ (b.checked_at = a.checked_at ∧ b.id ≤ a.id))
        (get_latest_checks db u n) := by
  have hrep : get_latest_checks db u n
      = List.insertionSort latestOrder (db.checks.filter (fun c => c.url_id == u)) := by
    unfold get_latest_checks sqliteLimit
    rw [if_pos hn]
  refine ⟨by rw [hrep]; exact (latest_perm db u).length_eq,
    fun c => ?_, by rw [hrep]; exact latest_sorted db u⟩
  rw [hrep, (latest_perm db u).mem_iff, List.mem_filter]
  simp

/-- C9 (confirmed): a registered target with no recorded checks yields the
empty list from get_latest_checks for every limit (negative ones included),
and the status endpoint derives latest = null and an empty history for it,
rather than an error. -/
theorem empty_history_contract (db : DB) (row : UrlRow) (hrow : row ∈ db.urls)
    (hnone : ∀ c ∈ db.checks, c.url_id ≠ row.id) :
    (∀ n : Int, get_latest_checks db row.id n = [])
    ∧ (statusEntry db row).latest = none
    ∧ (statusEntry db row).checks = [] := by
  have hfil : db.checks.filter (fun c => c.url_id == row.id) = [] :=
    List.filter_eq_nil_iff.mpr (fun c hc => by simpa using hnone c hc)
  have hall : ∀ n : Int, get_latest_checks db row.id n = [] := by
    intro n
    unfold get_latest_checks
    rw [hfil]
    simp [sqliteLimit]
  exact ⟨hall, by simp [statusEntry, hall 20], by simp [statusEntry, hall 20]⟩

/-- C2 witness: the ordering theorem instantiated at a concrete state. -/
theorem get_latest_checks_ordering_witness :
    (get_latest_checks dbTwoChecks 1 ((5 : Nat) : Int)).length ≤ 5
    ∧ List.Pairwise (fun a b => b.checked_at < a.checked_at
        ∨ (b.checked_at = a.checked_at ∧ b.id ≤ a.id))
        (get_latest_checks dbTwoChecks 1 ((5 : Nat) : Int)) :=
  ⟨(get_latest_checks_ordering dbTwoChecks 1 5).1,
   (get_latest_checks_ordering dbTwoChecks 1 5).2.2⟩

/-- C10 witness: with limit −1 the two stored checks of the target are both
returned. -/
theorem negative_limit_returns_all_witness :
    (-1 : Int) < 0
    ∧ (get_latest_checks dbTwoChecks 1 (-1)).length
        = (dbTwoChecks.checks.filter (fun c => c.url_id == 1)).length :=
  ⟨by decide, (negative_limit_returns_all dbTwoChecks 1 (-1) (by decide)).1⟩

/-- C9 witness: the empty-history theorem instantiated at a freshly
registered target. -/
theorem empty_history_contract_witness :
    get_latest_checks dbFreshTarget 1 20 = []
    ∧ get_latest_checks dbFreshTarget 1 (-1) = []
    ∧ (statusEntry dbFreshTarget ⟨1, "https://a.example.com", none, 60⟩).latest = none := by
  have h := empty_history_contract dbFreshTarget ⟨1, "https://a.example.com", none, 60⟩
    (by decide) (by decide)
  exact ⟨h.1 20, h.1 (-1), h.2.1⟩

/-- C4 (confirmed): under the UNIQUE-url invariant (at most one row per
url), registering the same url twice returns the same id both times, the
second call leaves the state untouched (so it updates neither label nor
interval — first registration wins), exactly one row for the url remains,
and when the url was new that row carries the first call's label and
interval. -/
theorem add_url_idempotent (db : DB) (url : String)
    (l1 : Option String) (i1 : Int) (l2 : Option String) (i2 : Int)
    (hinv : (db.urls.filter (fun r => r.url == url)).length ≤ 1) :
    (add_url (add_url db url l1 i1).2 url l2 i2).1 = (add_url db url l1 i1).1
    ∧ (add_url (add_url db url l1 i1).2 url l2 i2).2 = (add_url db url l1 i1).2
    ∧ ((add_url (add_url db url l1 i1).2 url l2 i2).2.urls.filter
        (fun r => r.url == url)).length = 1
    ∧ (db.urls.find? (fun r => r.url == url) = none →
        (add_url (add_url db url l1 i1).2 url l2 i2).2.urls.filter
          (fun r => r.url == url) = [⟨db.nextUrlId, url, l1, i1⟩]) := by
  rcases hfind : db.urls.find? (fun r => r.url == url) with _ | r
  · -- the url is new: the first call inserts it, the second finds it
    have hnil : db.urls.filter (fun r => r.url == url) = [] :=
      List.filter_eq_nil_iff.mpr
        (fun a ha => by simpa using List.find?_eq_none.mp hfind a ha)
    have h1 : add_url db url l1 i1
        = (db.nextUrlId,
            ⟨db.urls ++ [⟨db.nextUrlId, url, l1, i1⟩],
             db.checks, db.nextUrlId + 1, db.nextCheckId⟩) := by
      unfold add_url
      rw [hfind]
    have hfind2 : (db.urls ++ [(⟨db.nextUrlId, url, l1, i1⟩ : UrlRow)]).find?
        (fun r => r.url == url) = some ⟨db.nextUrlId, url, l1, i1⟩ := by
      rw [List.find?_append, hfind]
      simp
    have h2 : add_url (add_url db url l1 i1).2 url l2 i2
        = (db.nextUrlId, (add_url db url l1 i1).2) := by
      rw [h1]
      unfold add_url
      simp only [hfind2]
    refine ⟨by rw [h2, h1], by rw [h2], ?_, fun _ => ?_⟩
    · rw [h2, h1]
      simp only [List.filter_append, hnil]
      simp
    · rw [h2, h1]
      simp only [List.filter_append, hnil]
      simp
  · -- the url already exists: both calls return the stored row's id
    have hr : r ∈ db.urls := List.mem_of_find?_eq_some hfind
    have hru := List.find?_some hfind
    have h1 : add_url db url l1 i1 = (r.id, db) := by
      unfold add_url
      rw [hfind]
    have h2 : add_url (add_url db url l1 i1).2 url l2 i2 = (r.id, db) := by
      rw [h1]
      unfold add_url
      rw [hfind]
    have hmem : r ∈ db.urls.filter (fun r => r.url == url) :=
      List.mem_filter.mpr ⟨hr, hru⟩
    have hpos : 0 < (db.urls.filter (fun r => r.url == url)).length :=
      List.length_pos_of_mem hmem
    refine ⟨by rw [h2, h1], by rw [h2, h1], ?_, fun hnone => ?_⟩
    · rw [h2]
      show (db.urls.filter (fun r => r.url == url)).length = 1
      omega
    · rw [hnone] at hfind
      cases hfind

/-- C4 witness: registering the same url twice on a fresh database returns
id 1 both times and keeps the first call's label and interval. -/
theorem add_url_idempotent_witness :
    (add_url (add_url DB.empty "https://a.example.com" (some "A") 30).2
        "https://a.example.com" (some "B") 99).1
      = (add_url DB.empty "https://a.example.com" (some "A") 30).1
    ∧ (add_url (add_url DB.empty "https://a.example.com" (some "A") 30).2
        "https://a.example.com" (some "B") 99).2.urls.filter
          (fun r => r.url == "https://a.example.com")
      = [⟨1, "https://a.example.com", some "A", 30⟩] := by
  have h := add_url_idempotent DB.empty "https://a.example.com"
    (some "A") 30 (some "B") 99 (by decide)
  exact ⟨h.1, h.2.2.2 rfl⟩

/-- C3 counterexample: a task suspended inside its probe when stop is
signalled is cancelled mid-probe by run_checker's `t.cancel()`; its
in-flight probe does NOT run to completion, contradicting the claim. -/
theorem run_checker_cancel_midprobe_counterexample :
    run_checker_stop [TaskPhase.probing] = [TaskOutcome.cancelledMidProbe]
    ∧ probeRanToCompletion TaskOutcome.cancelledMidProbe = false :=
  ⟨rfl, rfl⟩

/-- C3 (corrected): once stop is signalled every per-target task is
cancelled and then gathered, so each of the N loops reaches a terminal
outcome determined only by its own phase and all of them are joined before
the stop call returns (the outcome list has exactly one entry per task,
N = 0 and zero completed probes included); however a loop that is
mid-probe is cancelled there, its probe aborted rather than run to
completion. -/
theorem run_checker_stop_joins_all (tasks : List TaskPhase) :
    (run_checker_stop tasks).length = tasks.length
    ∧ (∀ pre t post, tasks = pre ++ t :: post →
        run_checker_stop tasks
          = run_checker_stop pre ++ cancelTask t :: run_checker_stop post
        ∧ (t = TaskPhase.probing →
            probeRanToCompletion (cancelTask t) = false)
        ∧ (t = TaskPhase.waitingInterval →
            cancelTask t = TaskOutcome.cancelledIdle)
        ∧ (t = TaskPhase.finished →
            cancelTask t = TaskOutcome.stoppedNormally)) := by
  refine ⟨List.length_map .., fun pre t post hsplit => ?_⟩
  subst hsplit
  refine ⟨?_, fun ht => by subst ht; rfl, fun ht => by subst ht; rfl,
    fun ht => by subst ht; rfl⟩
  unfold run_checker_stop
  rw [List.map_append, List.map_cons]

/-- C3 witness: the amended theorem instantiated at two tasks, one
mid-probe and one waiting out its interval. -/
theorem run_checker_stop_joins_all_witness :
    (run_checker_stop [TaskPhase.probing, TaskPhase.waitingInterval]).length = 2
    ∧ run_checker_stop [TaskPhase.probing, TaskPhase.waitingInterval]
        = run_checker_stop []
          ++ cancelTask TaskPhase.probing
            :: run_checker_stop [TaskPhase.waitingInterval]
    ∧ probeRanToCompletion (cancelTask TaskPhase.probing) = false := by
  have h := run_checker_stop_joins_all [TaskPhase.probing, TaskPhase.waitingInterval]
  have h2 := h.2 [] TaskPhase.probing [TaskPhase.waitingInterval] rfl
  exact ⟨h.1, h2.1, h2.2.1 rfl⟩

/-- C7 counterexample: loading cfgMixed from a fresh database raises the
KeyError of the malformed second entry and aborts, so the valid third
entry is never registered — the malformed entry is not merely skipped. -/
theorem load_urls_skip_counterexample :
    (load_urls_from_json DB.empty cfgMixed).1 = Except.error "KeyError: url"
    ∧ (load_urls_from_json DB.empty cfgMixed).2.urls.filter
        (fun r => r.url == "https://b.example.com") = [] := by
  constructor <;> rfl

/-- C7 (corrected): load_urls_from_json performs no per-entry validation
and wraps nothing in try/except: every entry that has a url field is
registered as-is (invalid URLs and non-positive intervals included), and
the first entry missing its url field raises KeyError, which aborts
loading there — entries before it stay registered, entries after it are
never processed. -/
theorem load_urls_abort_on_malformed (db : DB) (cfg : Config) :
    ((∀ e ∈ cfg.urls, e.url.isSome = true) →
      (load_urls_from_json db cfg).1.map List.length
        = Except.ok cfg.urls.length)
    ∧ (∀ pre e post, cfg.urls = pre ++ e :: post →
        (∀ x ∈ pre, x.url.isSome = true) → e.url = none →
        (load_urls_from_json db cfg).1 = Except.error "KeyError: url"
        ∧ (load_urls_from_json db cfg).2
            = (load_urls_from_json db ⟨cfg.interval_seconds, pre⟩).2) := by
  have L1 : ∀ (d : Int) (entries : List ConfigEntry),
      (∀ e ∈ entries, e.url.isSome = true) →
      ∀ (db0 : DB) (acc : List Nat),
        ∃ ids db2, loadEntries d db0 acc entries = (Except.ok ids, db2)
          ∧ ids.length = acc.length + entries.length := by
    intro d entries
    induction entries with
    | nil =>
        intro _ db0 acc
        exact ⟨acc.reverse, db0, rfl, by simp⟩
    | cons e rest ih =>
        intro hall db0 acc
        rcases Option.isSome_iff_exists.mp (hall e (List.mem_cons_self ..)) with ⟨u, hu⟩
        have hrest : ∀ x ∈ rest, x.url.isSome = true :=
          fun x hx => hall x (List.mem_cons_of_mem _ hx)
        rcases ih hrest (add_url db0 u e.label (e.interval_seconds.getD d)).2
            ((add_url db0 u e.label (e.interval_seconds.getD d)).1 :: acc) with
          ⟨ids, db2, heq, hlen⟩
        refine ⟨ids, db2, ?_, by simp only [List.length_cons] at hlen ⊢; omega⟩
        unfold loadEntries
        rw [hu]
        exact heq
  have L2 : ∀ (d : Int) (pre : List ConfigEntry),
      (∀ x ∈ pre, x.url.isSome = true) →
      ∀ (e : ConfigEntry) (post : List ConfigEntry), e.url = none →
      ∀ (db0 : DB) (acc : List Nat),
        (loadEntries d db0 acc (pre ++ e :: post)).1 = Except.error "KeyError: url"
        ∧ (loadEntries d db0 acc (pre ++ e :: post)).2
            = (loadEntries d db0 acc pre).2 := by
    intro d pre
    induction pre with
    | nil =>
        intro _ e post he db0 acc
        constructor
        · show (loadEntries d db0 acc (e :: post)).1 = _
          unfold loadEntries
          rw [he]
        · show (loadEntries d db0 acc (e :: post)).2 = (loadEntries d db0 acc []).2
          unfold loadEntries
          rw [he]
    | cons x pre' ih =>
        intro hall e post he db0 acc
        rcases Option.isSome_iff_exists.mp (hall x (List.mem_cons_self ..)) with ⟨u, hu⟩
        have hpre' : ∀ y ∈ pre', y.url.isSome = true :=
          fun y hy => hall y (List.mem_cons_of_mem _ hy)
        have step := ih hpre' e post he
          (add_url db0 u x.label (x.interval_seconds.getD d)).2
          ((add_url db0 u x.label (x.interval_seconds.getD d)).1 :: acc)
        constructor
        · show (loadEntries d db0 acc (x :: (pre' ++ e :: post))).1 = _
          unfold loadEntries
          rw [hu]
          exact step.1
        · show (loadEntries d db0 acc (x :: (pre' ++ e :: post))).2
            = (loadEntries d db0 acc (x :: pre')).2
          unfold loadEntries
          rw [hu]
          exact step.2
  constructor
  · intro hall
    rcases L1 (cfg.interval_seconds.getD 60) cfg.urls hall db [] with ⟨ids, db2, heq, hlen⟩
    unfold load_urls_from_json
    rw [heq]
    simp only [List.length_nil, Nat.zero_add] at hlen
    simp [Except.map, hlen]
  · intro pre e post hsplit hpre he
    have := L2 (cfg.interval_seconds.getD 60) pre hpre e post he db []
    unfold load_urls_from_json
    rw [hsplit]
    exact this

/-- C7 witness: the amended theorem instantiated: a fully well-formed
registry loads every entry, and cfgMixed aborts at its malformed second
entry leaving exactly the state produced by its first entry alone. -/
theorem load_urls_abort_on_malformed_witness :
    (load_urls_from_json DB.empty
        ⟨none, [⟨some "https://a.example.com", none, none⟩]⟩).1.map List.length
      = Except.ok 1
    ∧ (load_urls_from_json DB.empty cfgMixed).1 = Except.error "KeyError: url"
    ∧ (load_urls_from_json DB.empty cfgMixed).2
        = (load_urls_from_json DB.empty
            ⟨none, [⟨some "https://a.example.com", none, none⟩]⟩).2 := by
  have h1 := (load_urls_abort_on_malformed DB.empty
    ⟨none, [⟨some "https://a.example.com", none, none⟩]⟩).1 (by decide)
  have h2 := (load_urls_abort_on_malformed DB.empty cfgMixed).2
    [⟨some "https://a.example.com", none, none⟩] ⟨none, none, none⟩
    [⟨some "https://b.example.com", none, none⟩] rfl (by decide) rfl
  exact ⟨h1, h2.1, h2.2⟩

/-- C8 counterexample: with the stop signal never raised, a loop whose
first tick's store write fails ends crashed at once — the second tick is
never reached and nothing is recorded — whereas the same schedule without
the failure leaves the loop still running.  The claim that the loop
continues and retries on the next tick is false. -/
theorem check_loop_record_failure_counterexample :
    check_loop 1 false DB.empty [envFail, envOk]
      = some (DB.empty, LoopExit.crashed)
    ∧ check_loop 1 false DB.empty [envOk, envOk] = none :=
  ⟨rfl, rfl⟩

/-- C8 (corrected): db.record_check is not wrapped in any try/except inside
_check_loop, so the first tick whose store write raises terminates that
target's loop immediately with the exception: the database stays as the
preceding successful ticks left it and no later tick runs.  Other targets'
loops are separate tasks over their own state and are unaffected; the
exception is only swallowed at shutdown by gather(return_exceptions=True). -/
theorem check_loop_crashes_on_record_failure (urlId : Nat) (db : DB)
    (pre : List IterEnv) (e : IterEnv) (post : List IterEnv)
    (hpre : ∀ x ∈ pre, x.recordFails = false ∧ x.stopDuringWait = false)
    (he : e.recordFails = true) :
    check_loop urlId false db (pre ++ e :: post)
      = some (recordAll urlId db pre, LoopExit.crashed) := by
  induction pre generalizing db with
  | nil =>
      show check_loop urlId false db (e :: post) = some (db, LoopExit.crashed)
      unfold check_loop
      rw [he]
      simp
  | cons x pre' ih =>
      have hx := hpre x (List.mem_cons_self ..)
      have hpre' : ∀ y ∈ pre', y.recordFails = false ∧ y.stopDuringWait = false :=
        fun y hy => hpre y (List.mem_cons_of_mem _ hy)
      show check_loop urlId false db (x :: (pre' ++ e :: post))
        = some (recordAll urlId db (x :: pre'), LoopExit.crashed)
      unfold check_loop
      rw [hx.1, hx.2]
      simpa [recordAll] using ih (recordProbe urlId db x) hpre'

/-- C8 witness: the crash theorem instantiated at a schedule with one
successful tick, then a failing store write, then a further tick. -/
theorem check_loop_crashes_on_record_failure_witness :
    check_loop 2 false DB.empty [envOk, envFail, envOk]
      = some (recordAll 2 DB.empty [envOk], LoopExit.crashed) :=
  check_loop_crashes_on_record_failure 2 DB.empty [envOk] envFail [envOk]
    (by decide) rfl

/-! ### Lemmas for the prune analysis (C1) -/

/-- A list's length decomposes as the sum, over a duplicate-free covering
list of keys, of the lengths of its per-key filters. -/
lemma length_eq_sum_filter {α : Type} (key : α → Nat) :
    ∀ S : List Nat, S.Nodup → ∀ m : List α, (∀ a ∈ m, key a ∈ S) →
      m.length = (S.map (fun u => (m.filter (fun a => key a == u)).length)).sum := by
  intro S
  induction S with
  | nil =>
      intro _ m hcov
      have hm : m = [] :=
        List.eq_nil_iff_forall_not_mem.mpr (fun a ha => by simpa using hcov a ha)
      subst hm
      simp
  | cons u S' ih =>
      intro hnd m hcov
      have hu : u ∉ S' := (List.nodup_cons.mp hnd).1
      have hnd' : S'.Nodup := (List.nodup_cons.mp hnd).2
      have hsplit : m.length = (m.filter (fun a => key a == u)).length
          + (m.filter (fun a => !(key a == u))).length := by
        have h := List.length_eq_countP_add_countP (p := fun a => key a == u) (l := m)
        simpa [List.countP_eq_length_filter] using h
      have hcov' : ∀ a ∈ m.filter (fun a => !(key a == u)), key a ∈ S' := by
        intro a ha
        have h2 := List.mem_filter.mp ha
        rcases List.mem_cons.mp (hcov a h2.1) with h4 | h4
        · exact absurd h2.2 (by simp [h4])
        · exact h4
      have hrec := ih hnd' (m.filter (fun a => !(key a == u))) hcov'
      have hsame : ∀ v ∈ S',
          ((m.filter (fun a => !(key a == u))).filter (fun a => key a == v))
            = m.filter (fun a => key a == v) := by
        intro v hv
        have hvne : v ≠ u := fun h => hu (h ▸ hv)
        rw [List.filter_filter]
        apply List.filter_congr
        intro a _
        by_cases hk : key a = v
        · simp [hk, hvne]
        · simp [hk]
      calc m.length
          = (m.filter (fun a => key a == u)).length
            + (m.filter (fun a => !(key a == u))).length := hsplit
        _ = (m.filter (fun a => key a == u)).length
            + (S'.map (fun v =>
                ((m.filter (fun a => !(key a == u))).filter
                  (fun a => key a == v)).length)).sum := by rw [hrec]
        _ = (m.filter (fun a => key a == u)).length
            + (S'.map (fun v => (m.filter (fun a => key a == v)).length)).sum := by
              have := List.map_congr_left
                (l := S')
                (f := fun v => ((m.filter (fun a => !(key a == u))).filter
                  (fun a => key a == v)).length)
                (g := fun v => (m.filter (fun a => key a == v)).length)
                (fun v hv => by simpa using congrArg List.length (hsame v hv))
              rw [this]
        _ = ((u :: S').map (fun v => (m.filter (fun a => key a == v)).length)).sum := by
              simp

/-- Termwise domination lets a difference of sums be taken termwise. -/
lemma sum_map_sub_of_le (S : List Nat) (f g : Nat → Nat) (h : ∀ u ∈ S, g u ≤ f u) :
    (S.map g).sum ≤ (S.map f).sum
    ∧ (S.map f).sum - (S.map g).sum = (S.map (fun u => f u - g u)).sum := by
  induction S with
  | nil => simp
  | cons u S' ih =>
      have hu := h u (List.mem_cons_self ..)
      obtain ⟨ih1, ih2⟩ := ih (fun v hv => h v (List.mem_cons_of_mem _ hv))
      simp only [List.map_cons, List.sum_cons]
      omega

/-- A row appearing among the first `k` most-recent rows (by the prune
window's order) of some partition belongs to the table and to that
partition. -/
lemma mem_take_sortedPart {l : List CheckRow} {u : Nat} {c : CheckRow} {k : Nat}
    (h : c ∈ (List.insertionSort pruneOrder
        (l.filter (fun d => d.url_id == u))).take k) :
    c ∈ l ∧ c.url_id = u := by
  have h1 := (List.perm_insertionSort pruneOrder
    (l.filter (fun d => d.url_id == u))).mem_iff.mp (List.take_subset _ _ h)
  have h2 := List.mem_filter.mp h1
  exact ⟨h2.1, by simpa using h2.2⟩

/-- With globally distinct check ids, a stored row's id is selected by the
prune subquery exactly when the row sits within the first `keep` rows of
its own partition's window order. -/
lemma mem_pruneKeptIds {l : List CheckRow} {keep : Int}
    (hid : (l.map (fun c => c.id)).Nodup) {c : CheckRow} (hc : c ∈ l) :
    c.id ∈ pruneKeptIds l keep
      ↔ c ∈ (List.insertionSort pruneOrder
          (l.filter (fun d => d.url_id == c.url_id))).take keep.toNat := by
  constructor
  · intro hmem
    rcases List.mem_flatMap.mp hmem with ⟨u, _, hidmem⟩
    rcases List.mem_map.mp hidmem with ⟨c', hc', hcid⟩
    have h1 := mem_take_sortedPart hc'
    have hcc : c' = c := List.inj_on_of_nodup_map hid h1.1 hc hcid
    subst hcc
    rw [h1.2]
    exact hc'
  · intro hmem
    exact List.mem_flatMap.mpr ⟨c.url_id,
      List.mem_dedup.mpr (List.mem_map.mpr ⟨c, hc, rfl⟩),
      List.mem_map.mpr ⟨c, hmem, rfl⟩⟩

/-- Membership in the rows surviving the prune DELETE. -/
lemma mem_pruned {l : List CheckRow} {keep : Int}
    (hid : (l.map (fun c => c.id)).Nodup) (c : CheckRow) :
    c ∈ l.filter (fun c => decide (c.id ∈ pruneKeptIds l keep))
      ↔ c ∈ (List.insertionSort pruneOrder
          (l.filter (fun d => d.url_id == c.url_id))).take keep.toNat := by
  rw [List.mem_filter]
  constructor
  · rintro ⟨hcl, hdec⟩
    exact (mem_pruneKeptIds hid hcl).mp (of_decide_eq_true hdec)
  · intro hmem
    have hcl := (mem_take_sortedPart hmem).1
    exact ⟨hcl, decide_eq_true ((mem_pruneKeptIds hid hcl).mpr hmem)⟩

/-- Membership in one target's share of the surviving rows. -/
lemma mem_pruned_filter {l : List CheckRow} {keep : Int}
    (hid : (l.map (fun c => c.id)).Nodup) (u : Nat) (c : CheckRow) :
    c ∈ (l.filter (fun c => decide (c.id ∈ pruneKeptIds l keep))).filter
        (fun c => c.url_id == u)
      ↔ c ∈ (List.insertionSort pruneOrder
          (l.filter (fun d => d.url_id == u))).take keep.toNat := by
  rw [List.mem_filter]
  constructor
  · rintro ⟨hp, hcu⟩
    have hcu' : c.url_id = u := by simpa using hcu
    have hmem := (mem_pruned hid c).mp hp
    rwa [hcu'] at hmem
  · intro hmem
    have h1 := mem_take_sortedPart hmem
    refine ⟨(mem_pruned hid c).mpr ?_, by simpa using h1.2⟩
    rwa [h1.2]

/-- Each target retains, after the prune DELETE, exactly the smaller of its
row count and the keep bound. -/
lemma pruned_filter_length {l : List CheckRow} {keep : Int}
    (hid : (l.map (fun c => c.id)).Nodup) (u : Nat) :
    ((l.filter (fun c => decide (c.id ∈ pruneKeptIds l keep))).filter
        (fun c => c.url_id == u)).length
      = min ((l.filter (fun c => c.url_id == u)).length) keep.toNat := by
  have hnd : l.Nodup := hid.of_map
  have hnd1 : ((l.filter (fun c => decide (c.id ∈ pruneKeptIds l keep))).filter
      (fun c => c.url_id == u)).Nodup := (hnd.filter _).filter _
  have hpermpart := List.perm_insertionSort pruneOrder
    (l.filter (fun d => d.url_id == u))
  have hndsort : (List.insertionSort pruneOrder
      (l.filter (fun d => d.url_id == u))).Nodup :=
    hpermpart.nodup_iff.mpr (hnd.filter _)
  have hndtake : ((List.insertionSort pruneOrder
      (l.filter (fun d => d.url_id == u))).take keep.toNat).Nodup :=
    hndsort.sublist (List.take_sublist ..)
  have hperm2 := (List.perm_ext_iff_of_nodup hnd1 hndtake).mpr
    (fun c => mem_pruned_filter hid u c)
  rw [hperm2.length_eq, List.length_take, hpermpart.length_eq, Nat.min_comm]

/-- C1 counterexample: one target with two checks sharing a timestamp;
prune(keep=1) retains the row with id 1 (the window ranks peers in scan
order), while the most-recent row by the §3 ordering — what
get_latest_checks returns — is the row with id 2.  The retained set is not
the keep most-recent by the §3 ordering. -/
theorem prune_tie_break_counterexample :
    (prune_old_checks dbTwoChecks 1).2.checks.map (fun c => c.id) = [1]
    ∧ (get_latest_checks dbTwoChecks 1 1).map (fun c => c.id) = [2]
    ∧ ¬ ((prune_old_checks dbTwoChecks 1).2.checks
          = get_latest_checks dbTwoChecks 1 1) := by
  refine ⟨rfl, rfl, by decide⟩

/-- C1 (corrected): with globally distinct check row ids, prune(keep=K)
leaves every target with exactly min(k_i, K) rows and returns
Σ max(0, k_i − K) (so one target's pruning never changes another's
retained count); the retained rows are the first K of the target's rows
ordered by checked_at descending — but rows tied on checked_at are ranked
in table-scan (insertion) order, earliest first, not by the §3 tie-break. -/
theorem prune_per_target_retention (db : DB) (keep : Int)
    (hid : (db.checks.map (fun c => c.id)).Nodup) :
    (∀ u : Nat,
      ((prune_old_checks db keep).2.checks.filter (fun c => c.url_id == u)).length
        = min ((db.checks.filter (fun c => c.url_id == u)).length) keep.toNat)
    ∧ (prune_old_checks db keep).1
        = (((db.checks.map (fun c => c.url_id)).dedup).map (fun u =>
            (db.checks.filter (fun c => c.url_id == u)).length
              - min ((db.checks.filter (fun c => c.url_id == u)).length)
                  keep.toNat)).sum
    ∧ (∀ c : CheckRow,
        c ∈ (prune_old_checks db keep).2.checks
          ↔ c ∈ (List.insertionSort pruneOrder
              (db.checks.filter (fun d => d.url_id == c.url_id))).take
                keep.toNat) := by
  have hsnd : (prune_old_checks db keep).2.checks
      = db.checks.filter (fun c => decide (c.id ∈ pruneKeptIds db.checks keep)) := rfl
  have hfst : (prune_old_checks db keep).1
      = db.checks.length - (db.checks.filter
          (fun c => decide (c.id ∈ pruneKeptIds db.checks keep))).length := rfl
  have hlen : ∀ u : Nat,
      ((prune_old_checks db keep).2.checks.filter (fun c => c.url_id == u)).length
        = min ((db.checks.filter (fun c => c.url_id == u)).length) keep.toNat := by
    intro u
    rw [hsnd]
    exact pruned_filter_length hid u
  refine ⟨hlen, ?_, fun c => by rw [hsnd]; exact mem_pruned hid c⟩
  have hcovl : ∀ c ∈ db.checks,
      c.url_id ∈ (db.checks.map (fun c => c.url_id)).dedup :=
    fun c hc => List.mem_dedup.mpr (List.mem_map.mpr ⟨c, hc, rfl⟩)
  have hcovp : ∀ c ∈ db.checks.filter
      (fun c => decide (c.id ∈ pruneKeptIds db.checks keep)),
      c.url_id ∈ (db.checks.map (fun c => c.url_id)).dedup :=
    fun c hc => hcovl c (List.mem_filter.mp hc).1
  have htotl := length_eq_sum_filter (fun c => c.url_id)
    ((db.checks.map (fun c => c.url_id)).dedup) (List.nodup_dedup _) db.checks hcovl
  have htotp := length_eq_sum_filter (fun c => c.url_id)
    ((db.checks.map (fun c => c.url_id)).dedup) (List.nodup_dedup _)
    (db.checks.filter (fun c => decide (c.id ∈ pruneKeptIds db.checks keep))) hcovp
  have hprunedlen : (db.checks.filter
      (fun c => decide (c.id ∈ pruneKeptIds db.checks keep))).length
      = (((db.checks.map (fun c => c.url_id)).dedup).map (fun u =>
          min ((db.checks.filter (fun c => c.url_id == u)).length) keep.toNat)).sum := by
    rw [htotp]
    congr 1
    exact List.map_congr_left (fun u _ => pruned_filter_length hid u)
  have hsub := sum_map_sub_of_le ((db.checks.map (fun c => c.url_id)).dedup)
    (fun u => (db.checks.filter (fun c => c.url_id == u)).length)
    (fun u => min ((db.checks.filter (fun c => c.url_id == u)).length) keep.toNat)
    (fun u _ => Nat.min_le_left ..)
  rw [hfst, hprunedlen, htotl]
  exact hsub.2

/-- C1 witness: pruning dbPruneW with keep = 2 retains min(3, 2) = 2 rows
for target 1 and deletes Σ max(0, k_i − 2) = 1 row in total. -/
theorem prune_per_target_retention_witness :
    (dbPruneW.checks.map (fun c => c.id)).Nodup
    ∧ ((prune_old_checks dbPruneW 2).2.checks.filter
        (fun c => c.url_id == 1)).length
      = min ((dbPruneW.checks.filter (fun c => c.url_id == 1)).length)
          ((2 : Int)).toNat
    ∧ (prune_old_checks dbPruneW 2).1
        = (((dbPruneW.checks.map (fun c => c.url_id)).dedup).map (fun u =>
            (dbPruneW.checks.filter (fun c => c.url_id == u)).length
              - min ((dbPruneW.checks.filter (fun c => c.url_id == u)).length)
                  ((2 : Int)).toNat)).sum := by
  have h := prune_per_target_retention dbPruneW 2 (by decide)
  exact ⟨by decide, h.1 1, h.2.1⟩

end Pingboard
